import Mathlib

/-
Verification of the Excel-Translator workflow (src/src/components/ExcelTranslator.tsx,
src/src/config/constants.ts).

Shallow embedding notes:
- JavaScript numbers that occur here (progress percentages) are modelled as ℚ;
  every concrete value appearing in the claims (40, 80, 100) is exact in both.
- An HTTP request's outcome is modelled by `HttpResult`: a parsed success body
  (the extracted candidates[0].content.parts[0].text field, absent when the
  response lacks it), an axios error (optional status, optional
  response.data.error.message, and the transport message), or a non-axios throw.
- `setTimeout`-based delays and API calls are recorded in an event trace
  (`BatchEvent`), so temporal claims become claims about the trace.
- React state updates (`setProgress`, `setData`, `setError`) are modelled as the
  emitted checkpoint list, the final pair list and the error field of `LoopOut`.
-/

-- Constants (ExcelTranslator.tsx lines 31-32, constants.ts).
def RATE_LIMIT_DELAY : Nat := 1000

def BATCH_SIZE : Nat := 10

def DEBUG_TRANSLATED_PERSIAN : String := "این یک ترجمه آزمایشی به فارسی است."

-- JavaScript String.prototype.includes, over Lean strings.
def listLeadsWith : List Char → List Char → Bool
  | [], _ => true
  | _ :: _, [] => false
  | p :: ps, c :: cs => p == c && listLeadsWith ps cs

def strContainsAux (pat : List Char) : List Char → Bool
  | [] => pat.isEmpty
  | c :: cs => listLeadsWith pat (c :: cs) || strContainsAux pat cs

def strContains (s pat : String) : Bool := strContainsAux pat.data s.data

-- Outcome of one axios POST, as observed by translateText's try/catch.
structure AxiosError where
  status : Option Nat
  dataErrorMessage : Option String
  message : String
deriving DecidableEq

inductive HttpResult where
  | success (textField : Option String)
  | axiosError (e : AxiosError)
  | otherError
deriving DecidableEq

-- error.response?.data?.error?.message?.includes('quota') (line 71); an absent
-- field is falsy in JavaScript.
def dataMsgHasQuota (e : AxiosError) : Bool :=
  match e.dataErrorMessage with
  | some m => strContains m "quota"
  | none => false

-- error.response?.data?.error?.message || error.message (line 76); JavaScript
-- `||` also rejects the empty string.
def passThroughMsg (e : AxiosError) : String :=
  match e.dataErrorMessage with
  | some m => if m = "" then e.message else m
  | none => e.message

-- translateText (lines 43-81).  A present, non-empty text field is returned;
-- a missing or empty one raises a plain Error inside the try, which the catch
-- reclassifies as the generic non-axios message.  Axios errors are classified
-- by status/message exactly as in lines 70-78.
def translateText : HttpResult → Except String String
  | HttpResult.success textField =>
    match textField with
    | some t =>
      if t = "" then Except.error "An unexpected error occurred during translation"
      else Except.ok t
    | none => Except.error "An unexpected error occurred during translation"
  | HttpResult.axiosError e =>
    if e.status = some 429 ∨ dataMsgHasQuota e = true then
      Except.error "API quota exceeded. Please try again later or use a different API key."
    else if e.status = some 401 then
      Except.error "Invalid API key. Please check your Gemini API key."
    else
      Except.error (passThroughMsg e)
  | HttpResult.otherError => Except.error "An unexpected error occurred during translation"

-- Observable actions of the batch loop: one API call per item, one timer wait
-- after a successful call.
inductive BatchEvent where
  | call (text : String)
  | sleep (ms : Nat)
deriving DecidableEq

-- translateBatch (lines 83-99), instrumented with its event trace.  A quota
-- message is rethrown (dropping the locally accumulated results); any other
-- failure pushes the placeholder and continues, without the delay.
def translateBatchRun : List (String × HttpResult) → List BatchEvent × Except String (List String)
  | [] => ([], Except.ok [])
  | (t, r) :: rest =>
    match translateText r with
    | Except.ok tr =>
      let out := translateBatchRun rest
      (BatchEvent.call t :: BatchEvent.sleep RATE_LIMIT_DELAY :: out.1,
       match out.2 with
       | Except.ok l => Except.ok (tr :: l)
       | Except.error e => Except.error e)
    | Except.error msg =>
      if strContains msg "quota" then
        ([BatchEvent.call t], Except.error msg)
      else
        let out := translateBatchRun rest
        (BatchEvent.call t :: out.1,
         match out.2 with
         | Except.ok l => Except.ok (DEBUG_TRANSLATED_PERSIAN :: l)
         | Except.error e => Except.error e)

structure TranslatedData where
  original : String
  translated : String
deriving DecidableEq

-- Math.min over the modelled JavaScript numbers.
def jsMin (a b : ℚ) : ℚ := if a ≤ b then a else b

-- Progress reported after the batch starting at index i (line 131).
def pmin (total i : Nat) : ℚ :=
  jsMin ((((i + BATCH_SIZE : Nat) : ℚ) / (total : ℚ)) * 100) 100

-- Everything handleFileUpload's loop makes observable: the final translatedData
-- array, the (setProgress, setData) checkpoints after each completed batch, the
-- user-visible error, and the trace of API calls and waits.
structure LoopOut where
  pairs : List TranslatedData
  emits : List (ℚ × List TranslatedData)
  error : Option String
  trace : List BatchEvent

-- The for-loop of handleFileUpload (lines 121-140): total is
-- textsToTranslate.length, i the running start index, acc the translatedData
-- accumulated so far.  A quota error sets the error and breaks; the unreachable
-- non-quota branch of the catch swallows the error and continues.
def runLoop (total : Nat) : List (List (String × HttpResult)) → Nat → List TranslatedData → LoopOut
  | [], _, acc => ⟨acc, [], none, []⟩
  | batch :: rest, i, acc =>
    match translateBatchRun batch with
    | (ev, Except.ok tb) =>
      let acc2 := acc ++ List.zipWith (fun p t => TranslatedData.mk p.1 t) batch tb
      let out := runLoop total rest (i + BATCH_SIZE) acc2
      ⟨out.pairs, (pmin total i, acc2) :: out.emits, out.error, ev ++ out.trace⟩
    | (ev, Except.error msg) =>
      if strContains msg "quota" then
        ⟨acc, [], some msg, ev⟩
      else
        let out := runLoop total rest (i + BATCH_SIZE) acc
        ⟨out.pairs, out.emits, out.error, ev ++ out.trace⟩

-- textsToTranslate.slice(i, i + BATCH_SIZE) partitioning of the loop; the
-- fuel argument only bounds the recursion depth and is irrelevant once it is
-- at least the list length (toBatchesAux_fuel below), keeping the definition
-- structural and hence evaluable by the kernel.
def toBatchesAux {α : Type} : Nat → List α → List (List α)
  | 0, _ => []
  | _ + 1, [] => []
  | fuel + 1, a :: rest =>
    ((a :: rest).take BATCH_SIZE) :: toBatchesAux fuel ((a :: rest).drop BATCH_SIZE)

def toBatches {α : Type} (l : List α) : List (List α) := toBatchesAux l.length l

theorem toBatchesAux_fuel {α : Type} :
    ∀ (f g : Nat) (l : List α), l.length ≤ f → l.length ≤ g →
      toBatchesAux f l = toBatchesAux g l := by
  intro f
  induction f with
  | zero =>
    intro g l hf _
    have hl : l = [] := List.eq_nil_of_length_eq_zero (Nat.le_zero.mp hf)
    subst hl
    cases g <;> rfl
  | succ f ih =>
    intro g l hf hg
    cases l with
    | nil => cases g <;> rfl
    | cons a rest =>
      cases g with
      | zero => exact absurd hg (by simp)
      | succ g =>
        show ((a :: rest).take BATCH_SIZE) :: toBatchesAux f ((a :: rest).drop BATCH_SIZE) =
          ((a :: rest).take BATCH_SIZE) :: toBatchesAux g ((a :: rest).drop BATCH_SIZE)
        simp only [List.length_cons] at hf hg
        have hd : ((a :: rest).drop BATCH_SIZE).length ≤ f := by
          simp only [List.length_drop, List.length_cons, BATCH_SIZE]
          omega
        have hd' : ((a :: rest).drop BATCH_SIZE).length ≤ g := by
          simp only [List.length_drop, List.length_cons, BATCH_SIZE]
          omega
        rw [ih g _ hd hd']

theorem toBatches_nil {α : Type} : toBatches ([] : List α) = [] := rfl

theorem toBatches_cons {α : Type} (a : α) (rest : List α) :
    toBatches (a :: rest) =
      ((a :: rest).take BATCH_SIZE) :: toBatches ((a :: rest).drop BATCH_SIZE) := by
  show toBatchesAux (rest.length + 1) (a :: rest) = _
  show ((a :: rest).take BATCH_SIZE) :: toBatchesAux rest.length ((a :: rest).drop BATCH_SIZE) = _
  rw [toBatchesAux_fuel rest.length ((a :: rest).drop BATCH_SIZE).length _
    (by simp only [List.length_drop, List.length_cons, BATCH_SIZE]; omega) (le_refl _)]
  rfl

-- handleFileUpload after parsing (lines 121-151), driven by the extracted
-- source strings, each paired with the HTTP outcome its single API call
-- would observe.
def handleFileUpload (items : List (String × HttpResult)) : LoopOut :=
  runLoop items.length (toBatches items) 0 []

-- All values ever passed to setProgress during one run: 0 at the start
-- (line 107), the per-batch values, and 100 in the finally block (line 150).
def progressSeq (r : LoopOut) : List ℚ :=
  0 :: (r.emits.map Prod.fst ++ [100])

-- The pair the workflow is expected to produce for one input item: its own
-- translation when the call succeeds, the fixed placeholder otherwise.
def expectedPair (x : String × HttpResult) : TranslatedData :=
  ⟨x.1, match translateText x.2 with
        | Except.ok t => t
        | Except.error _ => DEBUG_TRANSLATED_PERSIAN⟩

def itemResult (x : String × HttpResult) : String := (expectedPair x).translated

-- A result is fatal exactly when translateBatch's rethrow condition fires.
def isFatal (r : HttpResult) : Bool :=
  match translateText r with
  | Except.ok _ => false
  | Except.error m => strContains m "quota"

-- The trace the spec describes for one batch: call, then the fixed delay, then
-- the next item; stop at a fatal failure.
def specTrace : List (String × HttpResult) → List BatchEvent
  | [] => []
  | (t, r) :: rest =>
    match translateText r with
    | Except.ok _ => BatchEvent.call t :: BatchEvent.sleep RATE_LIMIT_DELAY :: specTrace rest
    | Except.error m =>
      if strContains m "quota" then [BatchEvent.call t]
      else BatchEvent.call t :: specTrace rest

def callCount (es : List BatchEvent) : Nat :=
  (es.filter (fun e => match e with | BatchEvent.call _ => true | BatchEvent.sleep _ => false)).length

def callTexts (es : List BatchEvent) : List String :=
  es.filterMap (fun e => match e with | BatchEvent.call t => some t | BatchEvent.sleep _ => none)

-- The temporal shape claimed by the spec: every call is immediately followed
-- by the fixed delay before anything else happens.
def callsFollowedBySleep : List BatchEvent → Bool
  | [] => true
  | BatchEvent.sleep _ :: rest => callsFollowedBySleep rest
  | [BatchEvent.call _] => false
  | BatchEvent.call _ :: BatchEvent.sleep d :: rest => (d == RATE_LIMIT_DELAY) && callsFollowedBySleep rest
  | BatchEvent.call _ :: BatchEvent.call _ :: _ => false

-- jsonData.filter(row => row[0]).map(row => row[0]) (line 117); JavaScript
-- truthiness rejects missing and empty first cells.
def jsTruthyCell (r : List String) : Bool :=
  match r.head? with
  | some s => !(s == "")
  | none => false

def extractTexts (rows : List (List String)) : List String :=
  (rows.filter jsTruthyCell).map (fun r => r.headD "")

-- Upload processing from the parsed sheet matrix: the k-th extracted string's
-- single API call observes env k.
def processFile (rows : List (List String)) (env : Nat → HttpResult) : LoopOut :=
  handleFileUpload ((extractTexts rows).enum.map (fun p => (p.2, env p.1)))

-- handleExport (lines 154-186).
def exportRows (data : List TranslatedData) : List (String × String) :=
  ("Original Text", "Persian Translation") :: data.map (fun r => (r.original, r.translated))

def exportFileName (originalFileName : String) : String :=
  if originalFileName = "" then "translated_document.xlsx" else "translated_" ++ originalFileName

structure AppState where
  data : List TranslatedData
  error : String
  originalFileName : String
deriving DecidableEq

structure ExportOutcome where
  state : AppState
  written : Option (String × List (String × String))
deriving DecidableEq

-- writeOk models whether the xlsx library's build-and-save sequence succeeds;
-- on failure the catch only sets the error message.
def handleExport (st : AppState) (writeOk : Bool) : ExportOutcome :=
  if writeOk then
    ⟨st, some (exportFileName st.originalFileName, exportRows st.data)⟩
  else
    ⟨{ st with error := "Error exporting file. Please try again." }, none⟩

-- Concrete inputs used by the claim scenarios.
def okItem : String × HttpResult := ("source", HttpResult.success (some "translated"))

def quotaItem : String × HttpResult :=
  ("source", HttpResult.axiosError ⟨some 429, none, "Request failed with status code 429"⟩)

def authItem : String × HttpResult :=
  ("source", HttpResult.axiosError ⟨some 401, none, "Request failed with status code 401"⟩)

def input10quota3 : List (String × HttpResult) :=
  List.replicate 2 okItem ++ [quotaItem] ++ List.replicate 7 okItem

def input25quota3 : List (String × HttpResult) :=
  List.replicate 2 okItem ++ [quotaItem] ++ List.replicate 22 okItem

def input15quota12 : List (String × HttpResult) :=
  List.replicate 11 okItem ++ [quotaItem] ++ List.replicate 3 okItem

def input10auth7 : List (String × HttpResult) :=
  List.replicate 6 okItem ++ [authItem] ++ List.replicate 3 okItem

def input25ok : List (String × HttpResult) := List.replicate 25 okItem

def batchAuthFirst : List (String × HttpResult) :=
  [("a", HttpResult.axiosError ⟨some 401, none, "Request failed with status code 401"⟩),
   ("b", HttpResult.success (some "T"))]

-- ### Shared lemmas

theorem translateBatchRun_ok (b : List (String × HttpResult))
    (h : ∀ x ∈ b, isFatal x.2 = false) :
    translateBatchRun b = (specTrace b, Except.ok (b.map itemResult)) := by
  induction b with
  | nil => rfl
  | cons x rest ih =>
    obtain ⟨t, r⟩ := x
    have hx : isFatal r = false := h (t, r) (List.mem_cons_self _ _)
    have hrest : ∀ y ∈ rest, isFatal y.2 = false := fun y hy => h y (List.mem_cons_of_mem _ hy)
    cases hr : translateText r with
    | ok v =>
      have hi : itemResult (t, r) = v := by simp [itemResult, expectedPair, hr]
      simp [translateBatchRun, specTrace, hr, ih hrest, hi]
    | error m =>
      have hq : strContains m "quota" = false := by
        simpa [isFatal, hr] using hx
      have hi : itemResult (t, r) = DEBUG_TRANSLATED_PERSIAN := by
        simp [itemResult, expectedPair, hr]
      simp [translateBatchRun, specTrace, hr, hq, ih hrest, hi]

theorem zipWith_mk_itemResult (b : List (String × HttpResult)) :
    List.zipWith (fun p t => TranslatedData.mk p.1 t) b (b.map itemResult) =
      b.map expectedPair := by
  induction b with
  | nil => rfl
  | cons x rest ih =>
    simp only [List.map_cons, List.zipWith_cons_cons, ih]
    rfl

-- Induction along the slice(i, i + BATCH_SIZE) partitioning.
theorem listBatchInduction {α : Type} {P : List α → Prop} (h0 : P [])
    (hstep : ∀ (a : α) (rest : List α), P ((a :: rest).drop BATCH_SIZE) → P (a :: rest)) :
    ∀ l, P l := by
  have key : ∀ (n : Nat) (l : List α), l.length ≤ n → P l := by
    intro n
    induction n with
    | zero =>
      intro l hl
      rw [List.eq_nil_of_length_eq_zero (Nat.le_zero.mp hl)]
      exact h0
    | succ n ih =>
      intro l hl
      cases l with
      | nil => exact h0
      | cons a rest =>
        apply hstep
        apply ih
        simp only [List.length_cons] at hl
        simp only [List.length_drop, List.length_cons, BATCH_SIZE]
        omega
  exact fun l => key l.length l (le_refl _)

theorem toBatches_flatten {α : Type} (l : List α) : (toBatches l).flatten = l := by
  induction l using listBatchInduction with
  | h0 => rfl
  | hstep a rest ih =>
    rw [toBatches_cons, List.flatten_cons, ih, List.take_append_drop]

theorem toBatches_take_flatten {α : Type} (l : List α) :
    ∀ k, ((toBatches l).take k).flatten = l.take (k * BATCH_SIZE) := by
  induction l using listBatchInduction with
  | h0 => intro k; simp [toBatches_nil]
  | hstep a rest ih =>
    intro k
    cases k with
    | zero => simp
    | succ k =>
      rw [toBatches_cons, List.take_succ_cons, List.flatten_cons, ih k,
        Nat.succ_mul, Nat.add_comm (k * BATCH_SIZE) BATCH_SIZE, List.take_add]

theorem runLoop_ok_eq (total : Nat) :
    ∀ (bs : List (List (String × HttpResult))) (i : Nat) (acc : List TranslatedData),
      (∀ b ∈ bs, ∀ x ∈ b, isFatal x.2 = false) →
      runLoop total bs i acc =
        ⟨acc ++ bs.flatten.map expectedPair,
         (List.range bs.length).map (fun k =>
           (pmin total (i + k * BATCH_SIZE),
            acc ++ ((bs.take (k + 1)).flatten).map expectedPair)),
         none,
         (bs.map specTrace).flatten⟩ := by
  intro bs
  induction bs with
  | nil => intro i acc h; simp [runLoop]
  | cons b rest ih =>
    intro i acc h
    have hb : ∀ x ∈ b, isFatal x.2 = false := h b (List.mem_cons_self _ _)
    have hrest : ∀ c ∈ rest, ∀ x ∈ c, isFatal x.2 = false :=
      fun c hc => h c (List.mem_cons_of_mem _ hc)
    rw [runLoop, translateBatchRun_ok b hb]
    simp only [zipWith_mk_itemResult, ih (i + BATCH_SIZE) (acc ++ b.map expectedPair) hrest]
    simp only [LoopOut.mk.injEq]
    refine ⟨?_, ?_, trivial, ?_⟩
    · simp [List.flatten_cons, List.map_append, List.append_assoc]
    · rw [List.length_cons, List.range_succ_eq_map, List.map_cons, List.map_map]
      refine congrArg₂ List.cons ?_ ?_
      · simp
      · refine List.map_congr_left (fun k _ => ?_)
        simp only [Function.comp_apply, Nat.succ_eq_add_one]
        refine congrArg₂ Prod.mk ?_ ?_
        · have : i + (k + 1) * BATCH_SIZE = i + BATCH_SIZE + k * BATCH_SIZE := by ring
          rw [this]
        · rw [List.take_succ_cons, List.flatten_cons, List.map_append, List.append_assoc]
    · simp [List.flatten_cons]

theorem jsMin_le_jsMin_left {a b c : ℚ} (h : a ≤ b) : jsMin a c ≤ jsMin b c := by
  unfold jsMin
  split_ifs with h1 h2
  · exact h
  · exact h1
  · exact le_trans (not_le.mp h1).le h
  · exact le_refl c

theorem jsMin_le_right (a b : ℚ) : jsMin a b ≤ b := by
  unfold jsMin
  split_ifs with h1
  · exact h1
  · exact le_refl b

theorem jsMin_nonneg {a b : ℚ} (ha : 0 ≤ a) (hb : 0 ≤ b) : 0 ≤ jsMin a b := by
  unfold jsMin
  split_ifs <;> assumption

theorem jsMin_eq_right_of_le {a b : ℚ} (h : b ≤ a) : jsMin a b = b := by
  unfold jsMin
  split_ifs with h1
  · exact le_antisymm h1 h
  · rfl

theorem pmin_nonneg (total i : Nat) : 0 ≤ pmin total i := by
  apply jsMin_nonneg
  · positivity
  · norm_num

theorem pmin_le_100 (total i : Nat) : pmin total i ≤ 100 := jsMin_le_right _ _

theorem pmin_mono (total : Nat) {i j : Nat} (h : i ≤ j) : pmin total i ≤ pmin total j := by
  apply jsMin_le_jsMin_left
  have hc : ((i + BATCH_SIZE : Nat) : ℚ) ≤ ((j + BATCH_SIZE : Nat) : ℚ) := by
    exact_mod_cast Nat.add_le_add_right h _
  rw [div_eq_mul_inv, div_eq_mul_inv]
  exact mul_le_mul_of_nonneg_right
    (mul_le_mul_of_nonneg_right hc (by positivity)) (by norm_num)

theorem runLoop_emits_bounds (total : Nat) :
    ∀ (bs : List (List (String × HttpResult))) (i : Nat) (acc : List TranslatedData),
      (∀ q ∈ (runLoop total bs i acc).emits.map Prod.fst, pmin total i ≤ q ∧ q ≤ 100) ∧
      List.Chain' (· ≤ ·) ((runLoop total bs i acc).emits.map Prod.fst) := by
  intro bs
  induction bs with
  | nil => intro i acc; simp [runLoop]
  | cons b rest ih =>
    intro i acc
    rcases hbr : translateBatchRun b with ⟨ev, res⟩
    cases res with
    | ok tb =>
      simp only [runLoop, hbr]
      obtain ⟨ihb, ihc⟩ :=
        ih (i + BATCH_SIZE) (acc ++ List.zipWith (fun p t => TranslatedData.mk p.1 t) b tb)
      constructor
      · intro q hq
        simp only [List.map_cons, List.mem_cons] at hq
        rcases hq with hq | hq
        · subst hq
          exact ⟨le_refl _, pmin_le_100 _ _⟩
        · obtain ⟨h1, h2⟩ := ihb q hq
          exact ⟨le_trans (pmin_mono total (Nat.le_add_right i BATCH_SIZE)) h1, h2⟩
      · rw [List.map_cons, List.chain'_cons']
        refine ⟨?_, ihc⟩
        intro y hy
        exact le_trans (pmin_mono total (Nat.le_add_right i BATCH_SIZE))
          (ihb y (List.mem_of_mem_head? hy)).1
    | error msg =>
      by_cases hq : strContains msg "quota" = true
      · simp [runLoop, hbr, hq]
      · have hq' : strContains msg "quota" = false := by
          simpa using hq
        simp only [runLoop, hbr, hq', Bool.false_eq_true, if_false]
        obtain ⟨ihb, ihc⟩ := ih (i + BATCH_SIZE) acc
        refine ⟨fun q hqm => ?_, ihc⟩
        obtain ⟨h1, h2⟩ := ihb q hqm
        exact ⟨le_trans (pmin_mono total (Nat.le_add_right i BATCH_SIZE)) h1, h2⟩

theorem translateBatchRun_ok_length :
    ∀ (b : List (String × HttpResult)) (ev : List BatchEvent) (l : List String),
      translateBatchRun b = (ev, Except.ok l) → l.length = b.length := by
  intro b
  induction b with
  | nil =>
    intro ev l h
    simp only [translateBatchRun, Prod.mk.injEq] at h
    obtain ⟨-, h2⟩ := h
    cases h2
    rfl
  | cons x rest ih =>
    obtain ⟨t, r⟩ := x
    intro ev l h
    cases hr : translateText r with
    | ok v =>
      rcases hout : translateBatchRun rest with ⟨ev', res'⟩
      simp only [translateBatchRun, hr, hout] at h
      cases res' with
      | ok l' =>
        simp only [Prod.mk.injEq, Except.ok.injEq] at h
        obtain ⟨-, h2⟩ := h
        subst h2
        simp [ih ev' l' hout]
      | error e =>
        simp at h
    | error m =>
      by_cases hq : strContains m "quota" = true
      · simp only [translateBatchRun, hr, hq, if_true] at h
        simp at h
      · have hq' : strContains m "quota" = false := by simpa using hq
        rcases hout : translateBatchRun rest with ⟨ev', res'⟩
        simp only [translateBatchRun, hr, hq', Bool.false_eq_true, if_false, hout] at h
        cases res' with
        | ok l' =>
          simp only [Prod.mk.injEq, Except.ok.injEq] at h
          obtain ⟨-, h2⟩ := h
          subst h2
          simp [ih ev' l' hout]
        | error e =>
          simp at h

theorem runLoop_error_multiple (total : Nat) :
    ∀ (bs : List (List (String × HttpResult))) (i : Nat) (acc : List TranslatedData),
      (∀ b ∈ bs.dropLast, b.length = BATCH_SIZE) →
      acc.length % BATCH_SIZE = 0 →
      (runLoop total bs i acc).error.isSome = true →
      (runLoop total bs i acc).pairs.length % BATCH_SIZE = 0 := by
  intro bs
  induction bs with
  | nil =>
    intro i acc _ _ herr
    simp [runLoop] at herr
  | cons b rest ih =>
    intro i acc hlen hacc herr
    rcases hbr : translateBatchRun b with ⟨ev, res⟩
    cases res with
    | ok tb =>
      simp only [runLoop, hbr] at herr ⊢
      cases rest with
      | nil => simp [runLoop] at herr
      | cons c cs =>
        have hb10 : b.length = BATCH_SIZE := by
          apply hlen
          have : (b :: c :: cs).dropLast = b :: (c :: cs).dropLast := rfl
          rw [this]
          exact List.mem_cons_self _ _
        have htb : tb.length = b.length := translateBatchRun_ok_length b ev tb hbr
        apply ih (i + BATCH_SIZE)
        · intro b' hb'
          apply hlen
          have : (b :: c :: cs).dropLast = b :: (c :: cs).dropLast := rfl
          rw [this]
          exact List.mem_cons_of_mem _ hb'
        · simp only [List.length_append, List.length_zipWith, htb, hb10, min_self]
          simp [Nat.add_mod, hacc, Nat.mod_self]
        · exact herr
    | error msg =>
      by_cases hq : strContains msg "quota" = true
      · simp only [runLoop, hbr, hq, if_true]
        exact hacc
      · have hq' : strContains msg "quota" = false := by simpa using hq
        simp only [runLoop, hbr, hq', Bool.false_eq_true, if_false] at herr ⊢
        cases rest with
        | nil => simp [runLoop] at herr
        | cons c cs =>
          apply ih (i + BATCH_SIZE)
          · intro b' hb'
            apply hlen
            have : (b :: c :: cs).dropLast = b :: (c :: cs).dropLast := rfl
            rw [this]
            exact List.mem_cons_of_mem _ hb'
          · exact hacc
          · exact herr

theorem toBatches_dropLast_length {α : Type} (l : List α) :
    ∀ b ∈ (toBatches l).dropLast, b.length = BATCH_SIZE := by
  induction l using listBatchInduction with
  | h0 => simp [toBatches_nil]
  | hstep a rest ih =>
    rw [toBatches_cons]
    cases hd : toBatches ((a :: rest).drop BATCH_SIZE) with
    | nil => simp
    | cons c cs =>
      intro b hb
      have heq : (((a :: rest).take BATCH_SIZE) :: c :: cs).dropLast
          = ((a :: rest).take BATCH_SIZE) :: (c :: cs).dropLast := rfl
      rw [heq] at hb
      rcases List.mem_cons.mp hb with hb | hb
      · subst hb
        have hne : (a :: rest).drop BATCH_SIZE ≠ [] := by
          intro h0'
          rw [h0', toBatches_nil] at hd
          exact List.noConfusion hd
        have hlen : BATCH_SIZE ≤ (a :: rest).length := by
          by_contra hlt
          push_neg at hlt
          exact hne (List.drop_eq_nil_of_le hlt.le)
        simp only [List.length_take, List.length_cons]
        simp only [List.length_cons] at hlen
        omega
      · rw [← hd] at hb
        exact ih b hb

theorem toBatches_no_fatal (items : List (String × HttpResult))
    (h : ∀ x ∈ items, isFatal x.2 = false) :
    ∀ b ∈ toBatches items, ∀ x ∈ b, isFatal x.2 = false := by
  intro b hb x hx
  apply h
  rw [← toBatches_flatten items]
  exact List.mem_flatten.mpr ⟨b, hb, hx⟩

theorem mem_of_getLastQ {α : Type} : ∀ {l : List α} {a : α}, a ∈ l.getLast? → a ∈ l := by
  intro l
  induction l with
  | nil =>
    intro a ha
    simp [List.getLast?] at ha
  | cons x rest ih =>
    intro a ha
    cases rest with
    | nil =>
      simp only [List.getLast?_singleton, Option.mem_def, Option.some.injEq] at ha
      simp [ha]
    | cons y ys =>
      rw [List.getLast?_cons_cons] at ha
      exact List.mem_cons_of_mem _ (ih ha)

-- ### Claims

/-- C1, counterexample: with 10 input strings whose third call returns HTTP 429,
the run's returned pair sequence has length 0, not 2 as the claim states —
translateBatch rethrows the quota error before its local results are appended. -/
theorem c1_cex :
    (handleFileUpload input10quota3).pairs.length = 0 ∧
    ¬ (handleFileUpload input10quota3).pairs.length = 2 := by
  decide

/-- C1, amended: a quota failure (HTTP 429 at item 3) stops the entire run
immediately — exactly 3 calls are issued even with 25 inputs queued — and sets
the user-visible quota error message; pairs from previously completed batches
are kept (15-input run with quota at item 12 keeps exactly the first batch),
but the failing batch's partial results are discarded, so the 10-input scenario
returns 0 pairs rather than 2. -/
theorem c1_quota_aborts_entire_run :
    (handleFileUpload input10quota3).error =
      some "API quota exceeded. Please try again later or use a different API key." ∧
    callCount (handleFileUpload input10quota3).trace = 3 ∧
    (handleFileUpload input10quota3).pairs = [] ∧
    callCount (handleFileUpload input25quota3).trace = 3 ∧
    (handleFileUpload input25quota3).pairs = [] ∧
    (handleFileUpload input25quota3).error.isSome = true ∧
    (handleFileUpload input15quota12).pairs = (input15quota12.take 10).map expectedPair ∧
    (handleFileUpload input15quota12).error.isSome = true := by
  decide

/-- C2: when no quota error occurs (no item's failure message is fatal), the
output is exactly one pair per input string, in input order, the original of
each pair being the source string; a non-fatally failing item receives the
fixed placeholder as its translated value (expectedPair), and no error is set. -/
theorem c2_no_quota_full_output (items : List (String × HttpResult))
    (h : ∀ x ∈ items, isFatal x.2 = false) :
    (handleFileUpload items).pairs = items.map expectedPair ∧
    (handleFileUpload items).pairs.length = items.length ∧
    (handleFileUpload items).pairs.map TranslatedData.original = items.map Prod.fst ∧
    (handleFileUpload items).error = none := by
  have hall := toBatches_no_fatal items h
  have key : (handleFileUpload items).pairs = items.map expectedPair := by
    simp only [handleFileUpload, runLoop_ok_eq items.length (toBatches items) 0 [] hall,
      List.nil_append]
    rw [toBatches_flatten]
  refine ⟨key, by rw [key]; simp, ?_, ?_⟩
  · rw [key, List.map_map]
    exact List.map_congr_left (fun x _ => rfl)
  · simp only [handleFileUpload, runLoop_ok_eq items.length (toBatches items) 0 [] hall]

/-- C2 witness: 10 inputs whose 7th call fails with HTTP 401 — the run yields
all 10 pairs in order and pair 7 (index 6) carries the placeholder string. -/
theorem c2_witness :
    (∀ x ∈ input10auth7, isFatal x.2 = false) ∧
    (handleFileUpload input10auth7).pairs = input10auth7.map expectedPair ∧
    ((handleFileUpload input10auth7).pairs.map TranslatedData.translated).get? 6 =
      some DEBUG_TRANSLATED_PERSIAN := by
  refine ⟨by decide, (c2_no_quota_full_output input10auth7 (by decide)).1, by decide⟩

/-- C3: in a run with no quota failure, the checkpoint after the k-th batch
carries progress pmin total (k * BATCH_SIZE) — i.e. min(((k+1)*10 / total) *
100, 100) — together with the full accumulated pair sequence so far (all pairs
of the first (k+1)*10 inputs); and the code's formula agrees with the spec's
"items attempted so far" formula min((min(a, n) / n) * 100, 100). -/
theorem c3_batch_progress (items : List (String × HttpResult))
    (h : ∀ x ∈ items, isFatal x.2 = false) :
    (handleFileUpload items).emits =
      (List.range (toBatches items).length).map (fun k =>
        (pmin items.length (k * BATCH_SIZE),
         (items.take ((k + 1) * BATCH_SIZE)).map expectedPair)) ∧
    (∀ a n : Nat, 0 < n →
      jsMin (((a : ℚ) / (n : ℚ)) * 100) 100 =
      jsMin ((((min a n : Nat) : ℚ) / (n : ℚ)) * 100) 100) := by
  constructor
  · have hall := toBatches_no_fatal items h
    simp only [handleFileUpload, runLoop_ok_eq items.length (toBatches items) 0 [] hall,
      List.nil_append, Nat.zero_add]
    refine List.map_congr_left (fun k _ => ?_)
    rw [toBatches_take_flatten]
  · intro a n hn
    rcases le_or_lt a n with hle | hlt
    · rw [Nat.min_eq_left hle]
    · rw [Nat.min_eq_right hlt.le]
      have hn0 : (0:ℚ) < (n:ℚ) := by exact_mod_cast hn
      have hr : (((n : Nat) : ℚ) / (n : ℚ)) * 100 = 100 := by
        rw [div_self (ne_of_gt hn0)]
        norm_num
      rw [hr]
      have h1 : (100:ℚ) ≤ ((a : ℚ) / (n : ℚ)) * 100 := by
        have hd : (1:ℚ) ≤ (a : ℚ) / (n : ℚ) :=
          (one_le_div hn0).mpr (by exact_mod_cast hlt.le)
        calc (100:ℚ) = 1 * 100 := by norm_num
          _ ≤ ((a:ℚ)/(n:ℚ)) * 100 := mul_le_mul_of_nonneg_right hd (by norm_num)
      rw [jsMin_eq_right_of_le h1, jsMin_eq_right_of_le (le_refl (100:ℚ))]

/-- C3 witness: a 25-input run splits into batches of sizes [10, 10, 5] and the
emitted progress values are exactly [40, 80, 100]. -/
theorem c3_witness :
    (∀ x ∈ input25ok, isFatal x.2 = false) ∧
    (toBatches input25ok).map List.length = [10, 10, 5] ∧
    (handleFileUpload input25ok).emits.map Prod.fst = [40, 80, 100] := by
  refine ⟨by decide, by decide, ?_⟩
  rw [(c3_batch_progress input25ok (by decide)).1]
  have h3 : (toBatches input25ok).length = 3 := by decide
  have h25 : input25ok.length = 25 := by decide
  rw [h3, h25]
  simp only [List.map_map, List.range_succ, List.range_zero, List.nil_append,
    List.map_append, List.map_cons, List.map_nil, List.cons_append, Function.comp_apply]
  norm_num [pmin, jsMin, BATCH_SIZE]

/-- C4: translateText classifies a failed request: HTTP 429 or a response
error message containing "quota" raises the quota message (fatal to the batch
loop); otherwise HTTP 401 raises the invalid-credential message (non-fatal);
any other transport or server error propagates the server's message, or the
transport's when the server sent none. -/
theorem c4_classification (e : AxiosError) :
    ((e.status = some 429 ∨ dataMsgHasQuota e = true) →
      (translateText (HttpResult.axiosError e) =
        Except.error "API quota exceeded. Please try again later or use a different API key." ∧
       isFatal (HttpResult.axiosError e) = true)) ∧
    (e.status ≠ some 429 → dataMsgHasQuota e = false → e.status = some 401 →
      (translateText (HttpResult.axiosError e) =
        Except.error "Invalid API key. Please check your Gemini API key." ∧
       isFatal (HttpResult.axiosError e) = false)) ∧
    (e.status ≠ some 429 → e.status ≠ some 401 → dataMsgHasQuota e = false →
      translateText (HttpResult.axiosError e) = Except.error (passThroughMsg e)) := by
  refine ⟨?_, ?_, ?_⟩
  · intro h
    have ht : translateText (HttpResult.axiosError e) =
        Except.error "API quota exceeded. Please try again later or use a different API key." := by
      simp only [translateText, if_pos h]
    refine ⟨ht, ?_⟩
    simp only [isFatal, ht]
    decide
  · intro h1 h2 h3
    have hcond : ¬ (e.status = some 429 ∨ dataMsgHasQuota e = true) := by
      rintro (hc | hc)
      · exact h1 hc
      · rw [h2] at hc
        exact Bool.false_ne_true hc
    have ht : translateText (HttpResult.axiosError e) =
        Except.error "Invalid API key. Please check your Gemini API key." := by
      simp only [translateText, if_neg hcond, if_pos h3]
    refine ⟨ht, ?_⟩
    simp only [isFatal, ht]
    decide
  · intro h1 h2 h3
    have hcond : ¬ (e.status = some 429 ∨ dataMsgHasQuota e = true) := by
      rintro (hc | hc)
      · exact h1 hc
      · rw [h3] at hc
        exact Bool.false_ne_true hc
    simp only [translateText, if_neg hcond, if_neg h2]

/-- C4 witness: concrete classifications — a 429 yields the quota message, a
bare 401 the credential message, and a 500 carrying a server error message
passes that message through. -/
theorem c4_witness :
    translateText (HttpResult.axiosError ⟨some 429, none, "Request failed with status code 429"⟩) =
      Except.error "API quota exceeded. Please try again later or use a different API key." ∧
    translateText (HttpResult.axiosError ⟨some 401, none, "Request failed with status code 401"⟩) =
      Except.error "Invalid API key. Please check your Gemini API key." ∧
    translateText (HttpResult.axiosError ⟨some 500, some "Internal error", "Request failed with status code 500"⟩) =
      Except.error "Internal error" := by
  refine ⟨((c4_classification ⟨some 429, none, "Request failed with status code 429"⟩).1
      (Or.inl rfl)).1,
    ((c4_classification ⟨some 401, none, "Request failed with status code 401"⟩).2.1
      (by decide) (by decide) rfl).1, ?_⟩
  have h := (c4_classification ⟨some 500, some "Internal error", "Request failed with status code 500"⟩).2.2
    (by decide) (by decide) (by decide)
  rw [h]
  rfl

/-- C5: over any single run — completed or aborted early by a quota failure —
the sequence of emitted progress values (the initial 0, one value per completed
batch, and the final value from the finally block) is monotonically
non-decreasing, and the final reported value is exactly 100. -/
theorem c5_progress_monotone_final (items : List (String × HttpResult)) :
    List.Chain' (· ≤ ·) (progressSeq (handleFileUpload items)) ∧
    (progressSeq (handleFileUpload items)).getLast? = some 100 := by
  obtain ⟨hb, hc⟩ := runLoop_emits_bounds items.length (toBatches items) 0 []
  have hL : progressSeq (handleFileUpload items) =
      0 :: ((runLoop items.length (toBatches items) 0 []).emits.map Prod.fst ++ [100]) := rfl
  rw [hL]
  constructor
  · rw [List.chain'_cons']
    constructor
    · intro y hy
      have hym := List.mem_of_mem_head? hy
      rcases List.mem_append.mp hym with hyL | hy100
      · exact le_trans (pmin_nonneg _ _) (hb y hyL).1
      · simp only [List.mem_singleton] at hy100
        subst hy100
        norm_num
    · rw [List.chain'_append]
      refine ⟨hc, List.chain'_singleton _, ?_⟩
      intro x hx y hy
      have hy100 : (100:ℚ) = y := by
        simpa using hy
      rw [← hy100]
      exact (hb x (mem_of_getLastQ hx)).2
  · rw [← List.cons_append]
    exact List.getLast?_concat _

/-- C6, counterexample: in a batch whose first call fails with HTTP 401, the
trace is call, call, sleep — no inter-request delay separates the failed first
call from the second, refuting "one call, one sleep" for every item. -/
theorem c6_cex :
    (translateBatchRun batchAuthFirst).1 =
      [BatchEvent.call "a", BatchEvent.call "b", BatchEvent.sleep 1000] ∧
    callsFollowedBySleep (translateBatchRun batchAuthFirst).1 = false := by
  decide

/-- C6, amended: items are processed strictly in order (the called texts are a
prefix of the batch's texts), and the batch trace follows specTrace: after a
successful call the processor sleeps the fixed delay before the next item,
while a non-fatally failed call proceeds to the next item immediately with no
sleep, and a fatal call ends the batch. -/
theorem c6_trace_shape (items : List (String × HttpResult)) :
    (translateBatchRun items).1 = specTrace items ∧
    (∃ k, callTexts (translateBatchRun items).1 = (items.map Prod.fst).take k) := by
  induction items with
  | nil => exact ⟨rfl, 0, rfl⟩
  | cons x rest ih =>
    obtain ⟨t, r⟩ := x
    obtain ⟨ih1, k, ih2⟩ := ih
    cases hr : translateText r with
    | ok v =>
      constructor
      · simp [translateBatchRun, specTrace, hr, ih1]
      · refine ⟨k + 1, ?_⟩
        simp only [translateBatchRun, hr, callTexts, List.filterMap_cons, List.map_cons,
          List.take_succ_cons]
        simpa [callTexts] using ih2
    | error m =>
      by_cases hq : strContains m "quota" = true
      · constructor
        · simp [translateBatchRun, specTrace, hr, hq]
        · refine ⟨1, ?_⟩
          simp [translateBatchRun, callTexts, hr, hq]
      · have hq' : strContains m "quota" = false := by simpa using hq
        constructor
        · simp [translateBatchRun, specTrace, hr, hq', ih1]
        · refine ⟨k + 1, ?_⟩
          simp only [translateBatchRun, hr, hq', Bool.false_eq_true, if_false, callTexts,
            List.filterMap_cons, List.map_cons, List.take_succ_cons]
          simpa [callTexts] using ih2

def c7data : List TranslatedData := [⟨"hello", "HELLO"⟩]

/-- C7, counterexample: the exported sheet's header row is
("Original Text", "Persian Translation"), not ("Original Text", "Translation")
as the claim states. -/
theorem c7_cex :
    (exportRows c7data).head? = some ("Original Text", "Persian Translation") ∧
    ¬ (exportRows c7data).head? = some ("Original Text", "Translation") := by
  decide

/-- C7, amended: export writes a two-column sheet whose first row holds the
header labels "Original Text" and "Persian Translation", followed by exactly
one row per processed pair in order, and a successful export writes it under
translated_<original-filename>, or translated_document.xlsx when no file name
is set. -/
theorem c7_export_shape (d : List TranslatedData) (name : String) :
    (exportRows d).length = d.length + 1 ∧
    (exportRows d).head? = some ("Original Text", "Persian Translation") ∧
    (exportRows d).drop 1 = d.map (fun r => (r.original, r.translated)) ∧
    (name ≠ "" → exportFileName name = "translated_" ++ name) ∧
    exportFileName "" = "translated_document.xlsx" ∧
    (handleExport ⟨d, "", name⟩ true).written = some (exportFileName name, exportRows d) := by
  refine ⟨by simp [exportRows], rfl, rfl, ?_, rfl, rfl⟩
  intro hne
  simp [exportFileName, hne]

/-- C7 witness: for a non-empty uploaded file name the export file name is the
original name with the translated_ prefix attached. -/
theorem c7_witness :
    ("f.xlsx" : String) ≠ "" ∧ exportFileName "f.xlsx" = "translated_f.xlsx" := by
  refine ⟨by decide, ?_⟩
  have h := (c7_export_shape c7data "f.xlsx").2.2.2.1 (by decide)
  rw [h]
  rfl

def c8state : AppState := ⟨[⟨"hello", "سلام"⟩], "", "book.xlsx"⟩

/-- C8: a failed export writes nothing, surfaces the fixed user-visible error
message, and leaves the in-memory pair sequence (and the stored file name)
unchanged; a successful export also leaves them unchanged. -/
theorem c8_export_failure_frame (st : AppState) (ok : Bool) :
    (handleExport st ok).state.data = st.data ∧
    (handleExport st ok).state.originalFileName = st.originalFileName ∧
    (ok = false →
      (handleExport st ok).state.error = "Error exporting file. Please try again." ∧
      (handleExport st ok).written = none) := by
  cases ok with
  | true => exact ⟨rfl, rfl, fun hc => Bool.noConfusion hc⟩
  | false => exact ⟨rfl, rfl, fun _ => ⟨rfl, rfl⟩⟩

/-- C8 witness: a concrete failed export sets the error message and keeps the
pair list intact. -/
theorem c8_witness :
    (handleExport c8state false).state.data = c8state.data ∧
    (handleExport c8state false).state.error = "Error exporting file. Please try again." := by
  exact ⟨(c8_export_failure_frame c8state false).1,
    ((c8_export_failure_frame c8state false).2.2 rfl).1⟩

/-- C9: when the uploaded file yields no parseable first-column values, the
run produces an empty pair sequence, makes no translation calls (empty trace),
and emits no batch checkpoints. -/
theorem c9_empty_extraction (rows : List (List String)) (env : Nat → HttpResult)
    (h : extractTexts rows = []) :
    (processFile rows env).pairs = [] ∧
    callCount (processFile rows env).trace = 0 ∧
    (processFile rows env).emits = [] := by
  have hpf : processFile rows env = handleFileUpload [] := by
    unfold processFile
    rw [h]
    rfl
  rw [hpf]
  exact ⟨rfl, rfl, rfl⟩

def c9rows : List (List String) := [[""], [], ["", "x"]]

def c9env : Nat → HttpResult := fun _ => HttpResult.otherError

/-- C9 witness: a sheet whose rows all lack a truthy first cell extracts no
texts, and processing it yields no pairs and no calls. -/
theorem c9_witness :
    extractTexts c9rows = [] ∧
    (processFile c9rows c9env).pairs = [] ∧
    callCount (processFile c9rows c9env).trace = 0 := by
  have h := c9_empty_extraction c9rows c9env (by decide)
  exact ⟨by decide, h.1, h.2.1⟩

/-- C10: whenever a run ends with an error set (which only a quota failure
does), the accumulated pair sequence length is a multiple of the batch size:
translations completed inside the failing batch are discarded because
translateBatch rethrows before its batch is appended. -/
theorem c10_quota_abort_multiple (items : List (String × HttpResult))
    (h : (handleFileUpload items).error.isSome = true) :
    (handleFileUpload items).pairs.length % BATCH_SIZE = 0 := by
  exact runLoop_error_multiple items.length (toBatches items) 0 []
    (toBatches_dropLast_length items) (by simp) h

/-- C10 witness: 15 inputs with a quota failure at item 12 abort with exactly
the 10 pairs of the completed first batch — item 11's finished translation is
discarded with its batch. -/
theorem c10_witness :
    (handleFileUpload input15quota12).error.isSome = true ∧
    (handleFileUpload input15quota12).pairs.length % BATCH_SIZE = 0 ∧
    (handleFileUpload input15quota12).pairs.length = 10 := by
  refine ⟨by decide, c10_quota_abort_multiple input15quota12 (by decide), by decide⟩

